import Mathlib

/-!
Shallow embedding of `src/scripts/make_website.py`, a minimal static-site
generator.  Templates live in a read-only map from template-root-relative
paths to contents (`FS`).  The two regular expressions

  `INCLUDE_RE` (double brace, `\s*`, `include:`, `\s*`, a nonempty run of
  letters, digits, underscore, dot, slash or dash, captured, `\s*`, double
  closing brace) and `VAR_RE` (double brace, `\s*`, a nonempty run of
  letters, digits or underscore, captured, `\s*`, double closing brace)

are modelled by explicit maximal-munch scanners.  This is exact: both
character classes exclude whitespace and braces, so Python's backtracking
engine has exactly one possible match at every start position, namely the
maximal-munch one, and `re.sub` replaces non-overlapping leftmost matches,
scanning the replacement text never.  `_render_template`'s recursion is made
total with an explicit recursion-depth fuel; the inner scanners use their
input length as fuel, which is always sufficient because every match
consumes at least one character.  Paths are modelled as the strings Python
builds them from, relative to `TEMPLATES_DIR`.
-/

/-- ASCII part of Python's `\s` (also `str.rstrip`'s default strip set). -/
def pySpace (c : Char) : Bool :=
  c = ' ' || c = '\t' || c = '\n' || c = '\r' || c = '\x0b' || c = '\x0c'

/-- The character class of `INCLUDE_RE`: letters, digits, underscore, dot,
slash, dash. -/
def includePathChar (c : Char) : Bool :=
  c.isAlpha || c.isDigit || c = '_' || c = '.' || c = '/' || c = '-'

/-- The character class `[a-zA-Z0-9_]` of `VAR_RE`. -/
def varNameChar (c : Char) : Bool :=
  c.isAlpha || c.isDigit || c = '_'

/-- Greedy `\s*`: drop the maximal run of whitespace. -/
def dropSpaces : List Char → List Char
  | [] => []
  | c :: cs => if pySpace c then dropSpaces cs else c :: cs

/-- Match a literal character sequence, returning the remainder. -/
def expectChars : List Char → List Char → Option (List Char)
  | [], l => some l
  | _ :: _, [] => none
  | e :: es, c :: cs => if c = e then expectChars es cs else none

/-- Greedy `[class]*`: split off the maximal run of class characters. -/
def takeClass (p : Char → Bool) : List Char → List Char × List Char
  | [] => ([], [])
  | c :: cs =>
    if p c then
      let r := takeClass p cs
      (c :: r.1, r.2)
    else ([], c :: cs)

/-- Try to match `VAR_RE` at the head of `l`; on success return the captured
identifier and the text after the match. -/
def matchVar (l : List Char) : Option (List Char × List Char) :=
  match expectChars ['\x7b', '\x7b'] l with
  | none => none
  | some l1 =>
    match takeClass varNameChar (dropSpaces l1) with
    | ([], _) => none
    | (k, l3) =>
      match expectChars ['\x7d', '\x7d'] (dropSpaces l3) with
      | none => none
      | some l5 => some (k, l5)

/-- Try to match `INCLUDE_RE` at the head of `l`; on success return the
captured relative path and the text after the match. -/
def matchInclude (l : List Char) : Option (List Char × List Char) :=
  match expectChars ['\x7b', '\x7b'] l with
  | none => none
  | some l1 =>
    match expectChars ['i', 'n', 'c', 'l', 'u', 'd', 'e', ':'] (dropSpaces l1) with
    | none => none
    | some l2 =>
      match takeClass includePathChar (dropSpaces l2) with
      | ([], _) => none
      | (p, l3) =>
        match expectChars ['\x7d', '\x7d'] (dropSpaces l3) with
        | none => none
        | some l5 => some (p, l5)

/-- The template store: contents of each template-root-relative path. -/
def FS : Type := String → Option String

/-- A rendering context, as Python's `dict[str, str]`. -/
def Ctx : Type := String → Option String

/-- The three exceptions `_render_template` can raise, plus the raw
`FileNotFoundError` of `path.read_text()` on a missing top-level path. -/
inductive RenderError
  | cycle (chain : String)
  | missingInclude (path : String)
  | missingVar (key : String) (path : String)
  | readFail (path : String)
deriving DecidableEq, Repr

/-- Result of the include-substitution pass (`INCLUDE_RE.sub`). -/
inductive IResult
  | outOfFuel
  | err (e : RenderError)
  | ok (l : List Char)
deriving DecidableEq, Repr

/-- Result of the variable-substitution pass (`VAR_RE.sub`). -/
inductive VResult
  | err (e : RenderError)
  | ok (l : List Char)
deriving DecidableEq, Repr

/-- Result of `_render_template`. -/
inductive RResult
  | outOfFuel
  | err (e : RenderError)
  | ok (s : String)
deriving DecidableEq, Repr

/-- `INCLUDE_RE.sub(include_replacer, text)`: scan left to right; at each
match check existence of the included path and splice in the recursive
render `r` of it; an exception aborts the whole pass.  `fuel` only bounds
the number of scanning steps; callers pass the text length, which is always
enough. -/
def substIncludes (fs : FS) (r : String → RResult) : Nat → List Char → IResult
  | _, [] => .ok []
  | 0, l => .ok l
  | fuel + 1, c :: cs =>
    match matchInclude (c :: cs) with
    | some (p, rest) =>
      match fs (String.mk p) with
      | none => .err (.missingInclude (String.mk p))
      | some _ =>
        match r (String.mk p) with
        | .outOfFuel => .outOfFuel
        | .err e => .err e
        | .ok s =>
          match substIncludes fs r fuel rest with
          | .outOfFuel => .outOfFuel
          | .err e => .err e
          | .ok tail => .ok (s.data ++ tail)
    | none =>
      match substIncludes fs r fuel cs with
      | .outOfFuel => .outOfFuel
      | .err e => .err e
      | .ok tail => .ok (c :: tail)

/-- `VAR_RE.sub(var_replacer, text)`: scan left to right; each matched
identifier must be a key of the context, else `var_replacer` raises
`KeyError` naming the key and the path being rendered. -/
def substVars (path : String) (ctx : Ctx) : Nat → List Char → VResult
  | _, [] => .ok []
  | 0, l => .ok l
  | fuel + 1, c :: cs =>
    match matchVar (c :: cs) with
    | some (k, rest) =>
      match ctx (String.mk k) with
      | none => .err (.missingVar (String.mk k) path)
      | some v =>
        match substVars path ctx fuel rest with
        | .err e => .err e
        | .ok tail => .ok (v.data ++ tail)
    | none =>
      match substVars path ctx fuel cs with
      | .err e => .err e
      | .ok tail => .ok (c :: tail)

/-- The chain `" -> ".join(...)` in the cycle-error message. -/
def cycleChain (ps : List String) : String :=
  String.intercalate " -> " ps

/-- `_render_template(path, context, stack)`.  The first argument is the
recursion-depth fuel (an artefact of totalising Python's unbounded
recursion): `outOfFuel` never occurs for fuel exceeding the include-nesting
depth. -/
def renderTemplate (fs : FS) (ctx : Ctx) : Nat → String → List String → RResult
  | 0, _, _ => .outOfFuel
  | fuel + 1, path, stack =>
    if path ∈ stack then
      .err (.cycle (cycleChain (stack ++ [path])))
    else
      match fs path with
      | none => .err (.readFail path)
      | some text =>
        match substIncludes fs (fun q => renderTemplate fs ctx fuel q (stack ++ [path]))
            text.data.length text.data with
        | .outOfFuel => .outOfFuel
        | .err e => .err e
        | .ok expanded =>
          match substVars path ctx expanded.length expanded with
          | .err e => .err e
          | .ok out => .ok (String.mk out)


/-- `current_attrs(name)` from `_page_context`: the pair of the
`aria-current` attribute and the current-class marker, selected by whether
`name` equals the page's `current` identifier. -/
def current_attrs (current name : String) : String × String :=
  if name = current then (" aria-current=\"page\"", " w--current") else ("", "")

/-- `_page_context(...)` as the association list underlying the returned
dict, in source order (all keys distinct).  Note the source passes the
identifier `"home"` to `current_attrs` for the `brand` entries of both
regions. -/
def page_context ( asset_prefix page_title page_description current : String) :
    List (String × String) :=
  [("asset_prefix", asset_prefix),
   ("page_title", page_title),
   ("page_description", page_description),
   ("page_og_title", page_title),
   ("page_og_description", page_description),
   ("page_twitter_title", page_title),
   ("page_twitter_description", page_description),
   ("nav_brand_aria", (current_attrs current "home").1),
   ("nav_brand_current_class", (current_attrs current "home").2),
   ("nav_home_aria", (current_attrs current "home").1),
   ("nav_home_current_class", (current_attrs current "home").2),
   ("nav_motorists_aria", (current_attrs current "motorists").1),
   ("nav_motorists_current_class", (current_attrs current "motorists").2),
   ("nav_law_aria", (current_attrs current "law").1),
   ("nav_law_current_class", (current_attrs current "law").2),
   ("footer_brand_aria", (current_attrs current "home").1),
   ("footer_brand_current_class", (current_attrs current "home").2),
   ("footer_home_aria", (current_attrs current "home").1),
   ("footer_home_current_class", (current_attrs current "home").2),
   ("footer_motorists_aria", (current_attrs current "motorists").1),
   ("footer_motorists_current_class", (current_attrs current "motorists").2),
   ("footer_law_aria", (current_attrs current "law").1),
   ("footer_law_current_class", (current_attrs current "law").2)]

/-- The context built by `_page_context`, as a key-value mapping. -/
def pageCtx ( asset_prefix page_title page_description current : String) : Ctx :=
  fun k => (page_context asset_prefix page_title page_description current).lookup k

/-- Python `str.rstrip()` (ASCII whitespace). -/
def rstrip (s : String) : String :=
  String.mk ((s.data.reverse.dropWhile pySpace).reverse)

/-- The write step of `main`: `rendered.rstrip() + "\n"`. -/
def finalizeRendered (rendered : String) : String :=
  rstrip rendered ++ "\n"

/-- Template store for the self-inclusion test: `a.html` includes itself. -/
def fsSelf : FS := fun p =>
  if p = "a.html" then some "\x7b\x7binclude: a.html\x7d\x7d" else none

/-- Template store for the transitive cycle test: `a.html` includes
`b.html`, which includes `a.html`. -/
def fsAB : FS := fun p =>
  if p = "a.html" then some "\x7b\x7binclude: b.html\x7d\x7d"
  else if p = "b.html" then some "\x7b\x7binclude: a.html\x7d\x7d"
  else none

/-- Template store for the diamond test: `root.html` includes `p1.html` and
`p2.html`, both of which include `x.html`, which uses a variable. -/
def fsDiamond : FS := fun p =>
  if p = "root.html" then some "\x7b\x7binclude: p1.html\x7d\x7d\x7b\x7binclude: p2.html\x7d\x7d"
  else if p = "p1.html" then some "[\x7b\x7binclude: x.html\x7d\x7d]"
  else if p = "p2.html" then some "(\x7b\x7binclude: x.html\x7d\x7d)"
  else if p = "x.html" then some "X\x7b\x7bv\x7d\x7d"
  else none

/-- The empty context. -/
def emptyCtx : Ctx := fun _ => none

/-- Context mapping `v` for the diamond test. -/
def ctxDiamond : Ctx := fun k => if k = "v" then some "!" else none




/-- The include-directive targets that `INCLUDE_RE` finds in a text, in
scan order.  Advancing one character at a time is exact here: no include
match can start strictly inside another (the matched region contains no
brace after its opening pair until the closing pair). -/
def includeRefs : List Char → List String
  | [] => []
  | c :: cs =>
    match matchInclude (c :: cs) with
    | some (p, _) => String.mk p :: includeRefs cs
    | none => includeRefs cs

/-- The first include-directive target of a text, if any: the leftmost
`INCLUDE_RE` match, whose replacer runs first under `re.sub`. -/
def firstIncludeRef : List Char → Option String
  | [] => none
  | c :: cs =>
    match matchInclude (c :: cs) with
    | some (p, _) => some (String.mk p)
    | none => firstIncludeRef cs

/-- The variable identifiers that `VAR_RE.sub` visits in a text, in scan
order (resuming after each match, as `re.sub` does). -/
def varRefs : Nat → List Char → List String
  | _, [] => []
  | 0, _ => []
  | fuel + 1, c :: cs =>
    match matchVar (c :: cs) with
    | some (k, rest) => String.mk k :: varRefs fuel rest
    | none => varRefs fuel cs

/-- Spec-side description of one variable-substitution pass: each variable
placeholder is replaced by its mapped context value and every other
character is copied unchanged; replacement text is never rescanned. -/
def specSubstVars (ctx : Ctx) : Nat → List Char → List Char
  | _, [] => []
  | 0, l => l
  | fuel + 1, c :: cs =>
    match matchVar (c :: cs) with
    | some (k, rest) =>
      match ctx (String.mk k) with
      | some v => v.data ++ specSubstVars ctx fuel rest
      | none => c :: specSubstVars ctx fuel cs
    | none => c :: specSubstVars ctx fuel cs

/-- Edge of the include graph: template `u` exists and its text contains an
include directive for `v`. -/
def IncludeStep (fs : FS) (u v : String) : Prop :=
  ∃ text, fs u = some text ∧ v ∈ includeRefs text.data

/-- The include graph reachable from `root` is acyclic: no template
reachable from `root` lies on an include cycle. -/
def AcyclicFrom (fs : FS) (root : String) : Prop :=
  ∀ v, Relation.ReflTransGen (IncludeStep fs) root v →
    ¬ Relation.TransGen (IncludeStep fs) v v

/-- The call tree of `_render_template`: `Calls fs path stack` holds when a
top-level render (empty stack) can reach a call on `path` with ancestor
stack `stack`.  A call recurses only after passing its own cycle check, on
targets of include directives of its text that exist on disk. -/
inductive Calls (fs : FS) : String → List String → Prop
  | top (root : String) : Calls fs root []
  | step {path : String} {stack : List String} {text q : String} :
      Calls fs path stack → path ∉ stack → fs path = some text →
      q ∈ includeRefs text.data → fs q ≠ none → Calls fs q (stack ++ [path])

/-- Template store for the plain-substitution example. -/
def fsHello : FS := fun p =>
  if p = "page.html" then some "Hello \x7b\x7bname\x7d\x7d!" else none

/-- Context for the plain-substitution example. -/
def ctxHello : Ctx := fun k => if k = "name" then some "World" else none

/-- Template store with one template referencing an unknown variable. -/
def fsVarMiss : FS := fun p =>
  if p = "t.html" then some "Hi \x7b\x7bname\x7d\x7d" else none

/-- Template store whose root references two nonexistent includes. -/
def fsTwoMissing : FS := fun p =>
  if p = "root.html" then
    some "\x7b\x7binclude: m1.html\x7d\x7d\x7b\x7binclude: m2.html\x7d\x7d"
  else none

/-- Template store for the literal-copy test: `t.html` uses variable `x`. -/
def fsLiteral : FS := fun p =>
  if p = "t.html" then some "A\x7b\x7bx\x7d\x7dB" else none

/-- Context whose value for `x` is itself placeholder-shaped text, and which
does map the injected identifier `other`. -/
def ctxLiteral : Ctx := fun k =>
  if k = "x" then some "\x7b\x7bother\x7d\x7d"
  else if k = "other" then some "ZZZ" else none

/-- A rank certifying that the diamond store's include graph is acyclic. -/
def rankDiamond : String → Nat := fun p =>
  if p = "root.html" then 3
  else if p = "p1.html" then 2
  else if p = "p2.html" then 2
  else if p = "x.html" then 1 else 0

theorem expectChars_length :
    ∀ (es l r : List Char), expectChars es l = some r → r.length + es.length = l.length := by
  intro es
  induction es with
  | nil =>
    intro l r h
    simp only [expectChars, Option.some.injEq] at h
    subst h
    simp
  | cons e es ih =>
    intro l r h
    cases l with
    | nil => simp [expectChars] at h
    | cons c cs =>
      simp only [expectChars] at h
      by_cases hc : c = e
      · rw [if_pos hc] at h
        have := ih cs r h
        simp only [List.length_cons]
        omega
      · rw [if_neg hc] at h
        simp at h

theorem expectChars_suffix :
    ∀ (es l r : List Char), expectChars es l = some r → r <:+ l := by
  intro es
  induction es with
  | nil =>
    intro l r h
    simp only [expectChars, Option.some.injEq] at h
    subst h
    exact List.suffix_refl _
  | cons e es ih =>
    intro l r h
    cases l with
    | nil => simp [expectChars] at h
    | cons c cs =>
      simp only [expectChars] at h
      by_cases hc : c = e
      · rw [if_pos hc] at h
        exact (ih cs r h).trans (List.suffix_cons c cs)
      · rw [if_neg hc] at h
        simp at h

theorem dropSpaces_suffix : ∀ l : List Char, dropSpaces l <:+ l := by
  intro l
  induction l with
  | nil => exact List.suffix_refl _
  | cons c cs ih =>
    simp only [dropSpaces]
    split
    · exact ih.trans (List.suffix_cons c cs)
    · exact List.suffix_refl _

theorem takeClass_snd_suffix (p : Char → Bool) : ∀ l : List Char, (takeClass p l).2 <:+ l := by
  intro l
  induction l with
  | nil => exact List.suffix_refl _
  | cons c cs ih =>
    simp only [takeClass]
    split
    · exact ih.trans (List.suffix_cons c cs)
    · exact List.suffix_refl _

theorem matchVar_length :
    ∀ (l k rest : List Char), matchVar l = some (k, rest) → rest.length + 4 ≤ l.length := by
  intro l k rest h
  unfold matchVar at h
  split at h
  · simp at h
  · split at h
    · simp at h
    · split at h
      · simp at h
      · rename_i x3 l1 h1 x2 ks l3 hne h2 x1 l5 h3
        simp only [Option.some.injEq, Prod.mk.injEq] at h
        obtain ⟨hk, hrest⟩ := h
        subst hrest
        have e1 := expectChars_length _ _ _ h1
        have e3 := expectChars_length _ _ _ h3
        have s1 : (dropSpaces l1).length ≤ l1.length := (dropSpaces_suffix l1).length_le
        have s2 : l3.length ≤ (dropSpaces l1).length := by
          have hs := takeClass_snd_suffix varNameChar (dropSpaces l1)
          rw [h2] at hs
          exact hs.length_le
        have s3 : (dropSpaces l3).length ≤ l3.length := (dropSpaces_suffix l3).length_le
        simp only [List.length_cons, List.length_nil] at e1 e3
        omega

theorem matchInclude_length :
    ∀ (l p rest : List Char), matchInclude l = some (p, rest) → rest.length + 4 ≤ l.length := by
  intro l p rest h
  unfold matchInclude at h
  split at h
  · simp at h
  · split at h
    · simp at h
    · split at h
      · simp at h
      · split at h
        · simp at h
        · rename_i x4 l1 h1 x3 l2 h2 x2 ps l3 hne h3 x1 l5 h4
          simp only [Option.some.injEq, Prod.mk.injEq] at h
          obtain ⟨hp, hrest⟩ := h
          subst hrest
          have e1 := expectChars_length _ _ _ h1
          have e2 := expectChars_length _ _ _ h2
          have e4 := expectChars_length _ _ _ h4
          have s1 : (dropSpaces l1).length ≤ l1.length := (dropSpaces_suffix l1).length_le
          have s2 : (dropSpaces l2).length ≤ l2.length := (dropSpaces_suffix l2).length_le
          have s3 : l3.length ≤ (dropSpaces l2).length := by
            have hs := takeClass_snd_suffix includePathChar (dropSpaces l2)
            rw [h3] at hs
            exact hs.length_le
          have s4 : (dropSpaces l3).length ≤ l3.length := (dropSpaces_suffix l3).length_le
          simp only [List.length_cons, List.length_nil] at e1 e2 e4
          omega

theorem matchInclude_suffix :
    ∀ (l p rest : List Char), matchInclude l = some (p, rest) → rest <:+ l := by
  intro l p rest h
  unfold matchInclude at h
  split at h
  · simp at h
  · split at h
    · simp at h
    · split at h
      · simp at h
      · split at h
        · simp at h
        · rename_i x4 l1 h1 x3 l2 h2 x2 ps l3 hne h3 x1 l5 h4
          simp only [Option.some.injEq, Prod.mk.injEq] at h
          obtain ⟨hp, hrest⟩ := h
          subst hrest
          have s3 : l3 <:+ dropSpaces l2 := by
            have hs := takeClass_snd_suffix includePathChar (dropSpaces l2)
            rw [h3] at hs
            exact hs
          exact (((((((expectChars_suffix _ _ _ h4).trans
            (dropSpaces_suffix l3)).trans s3).trans
            (dropSpaces_suffix l2)).trans (expectChars_suffix _ _ _ h2)).trans
            (dropSpaces_suffix l1)).trans (expectChars_suffix _ _ _ h1))

theorem matchInclude_suffix_tail :
    ∀ (c : Char) (cs p rest : List Char),
      matchInclude (c :: cs) = some (p, rest) → rest <:+ cs := by
  intro c cs p rest h
  rcases List.suffix_cons_iff.mp (matchInclude_suffix _ _ _ h) with heq | hs
  · have := matchInclude_length _ _ _ h
    subst heq
    simp at this
  · exact hs

theorem includeRefs_cons_some {c : Char} {cs p rest : List Char}
    (h : matchInclude (c :: cs) = some (p, rest)) :
    includeRefs (c :: cs) = String.mk p :: includeRefs cs := by
  simp [includeRefs, h]

theorem includeRefs_cons_none {c : Char} {cs : List Char}
    (h : matchInclude (c :: cs) = none) :
    includeRefs (c :: cs) = includeRefs cs := by
  simp [includeRefs, h]

theorem includeRefs_suffix_subset :
    ∀ {l l' : List Char}, l' <:+ l → ∀ q, q ∈ includeRefs l' → q ∈ includeRefs l := by
  intro l
  induction l with
  | nil =>
    intro l' h q hq
    rw [List.suffix_nil.mp h] at hq
    simp [includeRefs] at hq
  | cons c cs ih =>
    intro l' h q hq
    rcases List.suffix_cons_iff.mp h with heq | hs
    · subst heq
      exact hq
    · have hq' := ih hs q hq
      cases hm : matchInclude (c :: cs) with
      | some pr =>
        obtain ⟨p, rest⟩ := pr
        rw [includeRefs_cons_some hm]
        exact List.mem_cons_of_mem _ hq'
      | none =>
        rw [includeRefs_cons_none hm]
        exact hq'

theorem substIncludes_no_includes :
    ∀ (fs : FS) (r : String → RResult) (fuel : Nat) (l : List Char),
      includeRefs l = [] → l.length ≤ fuel → substIncludes fs r fuel l = .ok l := by
  intro fs r fuel
  induction fuel with
  | zero =>
    intro l h hl
    cases l with
    | nil => rfl
    | cons c cs => simp at hl
  | succ fuel ih =>
    intro l h hl
    cases l with
    | nil => rfl
    | cons c cs =>
      cases hm : matchInclude (c :: cs) with
      | some pr =>
        obtain ⟨p, rest⟩ := pr
        rw [includeRefs_cons_some hm] at h
        simp at h
      | none =>
        rw [includeRefs_cons_none hm] at h
        have hcs : cs.length ≤ fuel := by
          simp only [List.length_cons] at hl
          omega
        simp only [substIncludes, hm]
        rw [ih cs h hcs]

theorem varRefs_cons_some {c : Char} {cs k rest : List Char} {fuel : Nat}
    (h : matchVar (c :: cs) = some (k, rest)) :
    varRefs (fuel + 1) (c :: cs) = String.mk k :: varRefs fuel rest := by
  simp [varRefs, h]

theorem varRefs_cons_none {c : Char} {cs : List Char} {fuel : Nat}
    (h : matchVar (c :: cs) = none) :
    varRefs (fuel + 1) (c :: cs) = varRefs fuel cs := by
  simp [varRefs, h]

theorem substVars_all_present :
    ∀ (path : String) (ctx : Ctx) (fuel : Nat) (l : List Char),
      l.length ≤ fuel → (∀ k ∈ varRefs fuel l, ctx k ≠ none) →
      substVars path ctx fuel l = .ok (specSubstVars ctx fuel l) := by
  intro path ctx fuel
  induction fuel with
  | zero =>
    intro l hl hv
    cases l with
    | nil => rfl
    | cons c cs => simp at hl
  | succ fuel ih =>
    intro l hl hv
    cases l with
    | nil => rfl
    | cons c cs =>
      cases hm : matchVar (c :: cs) with
      | some kr =>
        obtain ⟨k, rest⟩ := kr
        have hk : ctx (String.mk k) ≠ none := by
          apply hv
          rw [varRefs_cons_some hm]
          exact List.mem_cons_self _ _
        cases hctx : ctx (String.mk k) with
        | none => exact absurd hctx hk
        | some v =>
          have hrest : rest.length ≤ fuel := by
            have := matchVar_length _ _ _ hm
            simp only [List.length_cons] at hl this
            omega
          have hv' : ∀ k' ∈ varRefs fuel rest, ctx k' ≠ none := by
            intro k' hk'
            apply hv
            rw [varRefs_cons_some hm]
            exact List.mem_cons_of_mem _ hk'
          simp only [substVars, specSubstVars, hm, hctx]
          rw [ih rest hrest hv']
      | none =>
        have hcs : cs.length ≤ fuel := by
          simp only [List.length_cons] at hl
          omega
        have hv' : ∀ k' ∈ varRefs fuel cs, ctx k' ≠ none := by
          intro k' hk'
          apply hv
          rw [varRefs_cons_none hm]
          exact hk'
        simp only [substVars, specSubstVars, hm]
        rw [ih cs hcs hv']

theorem substVars_missing :
    ∀ (path : String) (ctx : Ctx) (fuel : Nat) (l : List Char),
      l.length ≤ fuel → (∃ k, k ∈ varRefs fuel l ∧ ctx k = none) →
      ∃ k, substVars path ctx fuel l = .err (.missingVar k path) ∧
        ctx k = none ∧ k ∈ varRefs fuel l := by
  intro path ctx fuel
  induction fuel with
  | zero =>
    intro l hl hv
    cases l with
    | nil => simp [varRefs] at hv
    | cons c cs => simp at hl
  | succ fuel ih =>
    intro l hl hv
    cases l with
    | nil => simp [varRefs] at hv
    | cons c cs =>
      cases hm : matchVar (c :: cs) with
      | some kr =>
        obtain ⟨k, rest⟩ := kr
        cases hctx : ctx (String.mk k) with
        | none =>
          refine ⟨String.mk k, ?_, hctx, ?_⟩
          · simp only [substVars, hm, hctx]
          · rw [varRefs_cons_some hm]
            exact List.mem_cons_self _ _
        | some v =>
          have hrest : rest.length ≤ fuel := by
            have := matchVar_length _ _ _ hm
            simp only [List.length_cons] at hl this
            omega
          obtain ⟨k0, hk0, hk0n⟩ := hv
          rw [varRefs_cons_some hm] at hk0
          rcases List.mem_cons.mp hk0 with rfl | htl
          · exact absurd hk0n (by simp [hctx])
          · obtain ⟨k1, hs, hn, hmem⟩ := ih rest hrest ⟨k0, htl, hk0n⟩
            refine ⟨k1, ?_, hn, ?_⟩
            · simp only [substVars, hm, hctx, hs]
            · rw [varRefs_cons_some hm]
              exact List.mem_cons_of_mem _ hmem
      | none =>
        have hcs : cs.length ≤ fuel := by
          simp only [List.length_cons] at hl
          omega
        obtain ⟨k0, hk0, hk0n⟩ := hv
        rw [varRefs_cons_none hm] at hk0
        obtain ⟨k1, hs, hn, hmem⟩ := ih cs hcs ⟨k0, hk0, hk0n⟩
        refine ⟨k1, ?_, hn, ?_⟩
        · simp only [substVars, hm, hs]
        · rw [varRefs_cons_none hm]
          exact hmem

theorem substVars_err_shape :
    ∀ (path : String) (ctx : Ctx) (fuel : Nat) (l : List Char) (e : RenderError),
      substVars path ctx fuel l = .err e → ∃ k, e = .missingVar k path := by
  intro path ctx fuel
  induction fuel with
  | zero =>
    intro l e h
    cases l with
    | nil => simp [substVars] at h
    | cons c cs => simp [substVars] at h
  | succ fuel ih =>
    intro l e h
    cases l with
    | nil => simp [substVars] at h
    | cons c cs =>
      cases hm : matchVar (c :: cs) with
      | some kr =>
        obtain ⟨k, rest⟩ := kr
        simp only [substVars, hm] at h
        cases hctx : ctx (String.mk k) with
        | none =>
          rw [hctx] at h
          simp only [VResult.err.injEq] at h
          exact ⟨String.mk k, h.symm⟩
        | some v =>
          rw [hctx] at h
          cases hs : substVars path ctx fuel rest with
          | err e' =>
            rw [hs] at h
            simp only [VResult.err.injEq] at h
            subst h
            exact ih rest e' hs
          | ok tail =>
            rw [hs] at h
            simp at h
      | none =>
        simp only [substVars, hm] at h
        cases hs : substVars path ctx fuel cs with
        | err e' =>
          rw [hs] at h
          simp only [VResult.err.injEq] at h
          subst h
          exact ih cs e' hs
        | ok tail =>
          rw [hs] at h
          simp at h

theorem firstIncludeRef_cons_some {c : Char} {cs p rest : List Char}
    (h : matchInclude (c :: cs) = some (p, rest)) :
    firstIncludeRef (c :: cs) = some (String.mk p) := by
  simp [firstIncludeRef, h]

theorem firstIncludeRef_cons_none {c : Char} {cs : List Char}
    (h : matchInclude (c :: cs) = none) :
    firstIncludeRef (c :: cs) = firstIncludeRef cs := by
  simp [firstIncludeRef, h]

theorem substIncludes_first_missing :
    ∀ (fs : FS) (r : String → RResult) (fuel : Nat) (l : List Char) (q : String),
      l.length ≤ fuel → firstIncludeRef l = some q → fs q = none →
      substIncludes fs r fuel l = .err (.missingInclude q) := by
  intro fs r fuel
  induction fuel with
  | zero =>
    intro l q hl hf hfs
    cases l with
    | nil => simp [firstIncludeRef] at hf
    | cons c cs => simp at hl
  | succ fuel ih =>
    intro l q hl hf hfs
    cases l with
    | nil => simp [firstIncludeRef] at hf
    | cons c cs =>
      cases hm : matchInclude (c :: cs) with
      | some pr =>
        obtain ⟨p, rest⟩ := pr
        rw [firstIncludeRef_cons_some hm, Option.some.injEq] at hf
        subst hf
        simp only [substIncludes, hm, hfs]
      | none =>
        rw [firstIncludeRef_cons_none hm] at hf
        have hcs : cs.length ≤ fuel := by
          simp only [List.length_cons] at hl
          omega
        simp only [substIncludes, hm]
        rw [ih cs q hcs hf hfs]

theorem substIncludes_err :
    ∀ (fs : FS) (r : String → RResult) (fuel : Nat) (l : List Char) (e : RenderError),
      substIncludes fs r fuel l = .err e →
      (∃ q, q ∈ includeRefs l ∧ r q = .err e) ∨ ∃ q, e = .missingInclude q := by
  intro fs r fuel
  induction fuel with
  | zero =>
    intro l e h
    cases l with
    | nil => simp [substIncludes] at h
    | cons c cs => simp [substIncludes] at h
  | succ fuel ih =>
    intro l e h
    cases l with
    | nil => simp [substIncludes] at h
    | cons c cs =>
      cases hm : matchInclude (c :: cs) with
      | some pr =>
        obtain ⟨p, rest⟩ := pr
        simp only [substIncludes, hm] at h
        cases hfs : fs (String.mk p) with
        | none =>
          rw [hfs] at h
          simp only [IResult.err.injEq] at h
          exact Or.inr ⟨String.mk p, h.symm⟩
        | some t =>
          rw [hfs] at h
          cases hr : r (String.mk p) with
          | outOfFuel => rw [hr] at h; simp at h
          | err e' =>
            rw [hr] at h
            simp only [IResult.err.injEq] at h
            subst h
            refine Or.inl ⟨String.mk p, ?_, hr⟩
            rw [includeRefs_cons_some hm]
            exact List.mem_cons_self _ _
          | ok s =>
            rw [hr] at h
            cases hrec : substIncludes fs r fuel rest with
            | outOfFuel => rw [hrec] at h; simp at h
            | err e' =>
              rw [hrec] at h
              simp only [IResult.err.injEq] at h
              subst h
              rcases ih rest e' hrec with ⟨q, hq, hrq⟩ | hmi
              · refine Or.inl ⟨q, ?_, hrq⟩
                rw [includeRefs_cons_some hm]
                exact List.mem_cons_of_mem _
                  (includeRefs_suffix_subset (matchInclude_suffix_tail _ _ _ _ hm) q hq)
              · exact Or.inr hmi
            | ok tail => rw [hrec] at h; simp at h
      | none =>
        simp only [substIncludes, hm] at h
        cases hrec : substIncludes fs r fuel cs with
        | outOfFuel => rw [hrec] at h; simp at h
        | err e' =>
          rw [hrec] at h
          simp only [IResult.err.injEq] at h
          subst h
          rcases ih cs e' hrec with ⟨q, hq, hrq⟩ | hmi
          · refine Or.inl ⟨q, ?_, hrq⟩
            rw [includeRefs_cons_none hm]
            exact hq
          · exact Or.inr hmi
        | ok tail => rw [hrec] at h; simp at h

theorem chain_head_transGen {R : String → String → Prop} :
    ∀ {x b : String} {rest : List String}, List.Chain' R (x :: rest) → b ∈ rest →
      Relation.TransGen R x b := by
  intro x b rest
  induction rest generalizing x with
  | nil =>
    intro _ hb
    simp at hb
  | cons y ys ih =>
    intro hch hb
    have hxy : R x y := (List.chain'_cons.mp hch).1
    have hch' : List.Chain' R (y :: ys) := (List.chain'_cons.mp hch).2
    rcases List.mem_cons.mp hb with rfl | hb'
    · exact Relation.TransGen.single hxy
    · exact Relation.TransGen.head hxy (ih hch' hb')

theorem chain_dup_cycle {R : String → String → Prop} :
    ∀ {l : List String}, List.Chain' R l → ¬ l.Nodup →
      ∃ v, v ∈ l ∧ Relation.TransGen R v v := by
  intro l
  induction l with
  | nil =>
    intro _ hnd
    exact absurd List.nodup_nil hnd
  | cons x rest ih =>
    intro hch hnd
    by_cases hx : x ∈ rest
    · exact ⟨x, List.mem_cons_self _ _, chain_head_transGen hch hx⟩
    · have hnd' : ¬ rest.Nodup := by
        intro hrest
        exact hnd (List.nodup_cons.mpr ⟨hx, hrest⟩)
      obtain ⟨v, hv, hvv⟩ := ih hch.tail hnd'
      exact ⟨v, List.mem_cons_of_mem _ hv, hvv⟩

theorem rank_acyclic {R : String → String → Prop} (f : String → Nat)
    (hf : ∀ u v, R u v → f v < f u) : ∀ v, ¬ Relation.TransGen R v v := by
  have hlt : ∀ u v, Relation.TransGen R u v → f v < f u := by
    intro u v h
    induction h with
    | single h1 => exact hf _ _ h1
    | tail _ h2 ih => exact (hf _ _ h2).trans ih
  intro v hv
  exact absurd (hlt v v hv) (lt_irrefl _)

theorem nodup_concat {l : List String} {a : String} (h : l.Nodup) (ha : a ∉ l) :
    (l ++ [a]).Nodup := by
  rw [List.nodup_append]
  refine ⟨h, List.nodup_singleton a, ?_⟩
  intro x hx hxa
  rcases List.mem_singleton.mp hxa with rfl
  exact ha hx

theorem render_no_cycle_aux (fs : FS) (ctx : Ctx) (root : String)
    (hac : AcyclicFrom fs root) :
    ∀ (fuel : Nat) (path : String) (stack : List String),
      List.Chain' (IncludeStep fs) (stack ++ [path]) →
      (∀ x ∈ stack ++ [path], Relation.ReflTransGen (IncludeStep fs) root x) →
      ∀ c, renderTemplate fs ctx fuel path stack ≠ .err (.cycle c) := by
  intro fuel
  induction fuel with
  | zero =>
    intro path stack _ _ c h
    simp [renderTemplate] at h
  | succ fuel ih =>
    intro path stack hch hreach c h
    have hni : path ∉ stack := by
      intro hmem
      have hnd : ¬ (stack ++ [path]).Nodup := by
        intro hnd
        rw [List.nodup_append] at hnd
        exact hnd.2.2 hmem (List.mem_singleton.mpr rfl)
      obtain ⟨v, hv, hvv⟩ := chain_dup_cycle hch hnd
      exact hac v (hreach v hv) hvv
    simp only [renderTemplate, if_neg hni] at h
    split at h
    · simp at h
    · rename_i text hfs
      split at h
      · simp at h
      · rename_i e hsub
        simp only [RResult.err.injEq] at h
        subst h
        rcases substIncludes_err _ _ _ _ _ hsub with ⟨q, hq, hrq⟩ | ⟨q, hq⟩
        · have hstep : IncludeStep fs path q := ⟨text, hfs, hq⟩
          have hpmem : path ∈ stack ++ [path] :=
            List.mem_append_right _ (List.mem_singleton.mpr rfl)
          have hch' : List.Chain' (IncludeStep fs) ((stack ++ [path]) ++ [q]) := by
            rw [List.chain'_append]
            refine ⟨hch, List.chain'_singleton q, ?_⟩
            intro x hx y hy
            rw [List.getLast?_concat] at hx
            simp only [List.head?_cons, Option.mem_def, Option.some.injEq] at hx hy
            subst hx
            subst hy
            exact hstep
          have hreach' : ∀ x ∈ (stack ++ [path]) ++ [q],
              Relation.ReflTransGen (IncludeStep fs) root x := by
            intro x hx
            rcases List.mem_append.mp hx with hx1 | hx2
            · exact hreach x hx1
            · rcases List.mem_singleton.mp hx2 with rfl
              exact (hreach path hpmem).tail hstep
          exact ih q (stack ++ [path]) hch' hreach' c hrq
        · exact RenderError.noConfusion hq
      · rename_i expanded hsub
        split at h
        · rename_i e hsv
          simp only [RResult.err.injEq] at h
          subst h
          obtain ⟨k, hk⟩ := substVars_err_shape _ _ _ _ _ hsv
          exact RenderError.noConfusion hk
        · simp at h

theorem fsDiamond_edges :
    ∀ u v, IncludeStep fsDiamond u v → rankDiamond v < rankDiamond u := by
  intro u v hst
  obtain ⟨t, hu, hv⟩ := hst
  by_cases h1 : u = "root.html"
  · subst h1
    have ht : fsDiamond "root.html" =
        some "\x7b\x7binclude: p1.html\x7d\x7d\x7b\x7binclude: p2.html\x7d\x7d" := by decide
    rw [ht] at hu
    injection hu with hu'
    subst hu'
    have hrefs : includeRefs
        (String.data "\x7b\x7binclude: p1.html\x7d\x7d\x7b\x7binclude: p2.html\x7d\x7d") =
        ["p1.html", "p2.html"] := by decide
    rw [hrefs] at hv
    simp only [List.mem_cons, List.not_mem_nil, or_false] at hv
    rcases hv with rfl | rfl
    · decide
    · decide
  · by_cases h2 : u = "p1.html"
    · subst h2
      have ht : fsDiamond "p1.html" = some "[\x7b\x7binclude: x.html\x7d\x7d]" := by decide
      rw [ht] at hu
      injection hu with hu'
      subst hu'
      have hrefs : includeRefs (String.data "[\x7b\x7binclude: x.html\x7d\x7d]") =
          ["x.html"] := by decide
      rw [hrefs] at hv
      simp only [List.mem_cons, List.not_mem_nil, or_false] at hv
      subst hv
      decide
    · by_cases h3 : u = "p2.html"
      · subst h3
        have ht : fsDiamond "p2.html" = some "(\x7b\x7binclude: x.html\x7d\x7d)" := by decide
        rw [ht] at hu
        injection hu with hu'
        subst hu'
        have hrefs : includeRefs (String.data "(\x7b\x7binclude: x.html\x7d\x7d)") =
            ["x.html"] := by decide
        rw [hrefs] at hv
        simp only [List.mem_cons, List.not_mem_nil, or_false] at hv
        subst hv
        decide
      · by_cases h4 : u = "x.html"
        · subst h4
          have ht : fsDiamond "x.html" = some "X\x7b\x7bv\x7d\x7d" := by decide
          rw [ht] at hu
          injection hu with hu'
          subst hu'
          have hrefs : includeRefs (String.data "X\x7b\x7bv\x7d\x7d") = [] := by decide
          rw [hrefs] at hv
          simp at hv
        · have hnone : fsDiamond u = none := by
            simp [fsDiamond, h1, h2, h3, h4]
          rw [hnone] at hu
          exact Option.noConfusion hu

theorem fsDiamond_acyclic : AcyclicFrom fsDiamond "root.html" := by
  intro v _
  exact rank_acyclic rankDiamond fsDiamond_edges v

/-- C1: whenever the rendered path already appears in the ancestor stack,
`_render_template` raises the cycle error whose message is the full chain of
paths from the outermost ancestor to the repeated path, in order, joined by
the separator `" -> "`; in particular self-inclusion of `a.html` reports the
chain `a.html -> a.html`, and the transitive cycle through `b.html` reports
`a.html -> b.html -> a.html`. -/
theorem c1_cycle_error_chain :
    (∀ (fs : FS) (ctx : Ctx) (fuel : Nat) (path : String) (stack : List String),
      path ∈ stack →
      renderTemplate fs ctx (fuel + 1) path stack =
        .err (.cycle (cycleChain (stack ++ [path])))) ∧
    renderTemplate fsSelf emptyCtx 3 "a.html" [] =
      .err (.cycle "a.html -> a.html") ∧
    renderTemplate fsAB emptyCtx 4 "a.html" [] =
      .err (.cycle "a.html -> b.html -> a.html") := by
  refine ⟨?_, by decide, by decide⟩
  intro fs ctx fuel path stack hmem
  simp only [renderTemplate, if_pos hmem]

theorem c1_cycle_error_chain_witness :
    renderTemplate fsSelf emptyCtx 1 "a.html" ["a.html"] =
      .err (.cycle (cycleChain (["a.html"] ++ ["a.html"]))) :=
  c1_cycle_error_chain.1 fsSelf emptyCtx 0 "a.html" ["a.html"] (by decide)

/-- C2: a template without include directives, rendered top-level under a
context defining every variable the text references, renders successfully to
the text with each placeholder replaced by its mapped value and every other
character unchanged (no trimming); in particular `Hello {{name}}!` with
`name = World` renders to `Hello World!`. -/
theorem c2_no_include_substitution :
    (∀ (fs : FS) (ctx : Ctx) (fuel : Nat) (path text : String),
      fs path = some text →
      includeRefs text.data = [] →
      (∀ k ∈ varRefs text.data.length text.data, ctx k ≠ none) →
      renderTemplate fs ctx (fuel + 1) path [] =
        .ok (String.mk (specSubstVars ctx text.data.length text.data))) ∧
    renderTemplate fsHello ctxHello 1 "page.html" [] = .ok "Hello World!" := by
  constructor
  · intro fs ctx fuel path text hfs hni hv
    have h1 : substIncludes fs (fun q => renderTemplate fs ctx fuel q ([] ++ [path]))
        text.data.length text.data = .ok text.data :=
      substIncludes_no_includes _ _ _ _ hni le_rfl
    simp only [renderTemplate, if_neg (List.not_mem_nil path), hfs, h1,
      substVars_all_present path ctx text.data.length text.data le_rfl hv]
  · decide

theorem c2_no_include_substitution_witness :
    renderTemplate fsHello ctxHello 1 "page.html" [] =
      .ok (String.mk (specSubstVars ctxHello
        (String.data "Hello \x7b\x7bname\x7d\x7d!").length
        (String.data "Hello \x7b\x7bname\x7d\x7d!"))) :=
  c2_no_include_substitution.1 fsHello ctxHello 0 "page.html"
    "Hello \x7b\x7bname\x7d\x7d!" (by decide) (by decide) (by decide)

/-- C3: if, after the include pass completes, the expanded text still
references a variable absent from the context, the render raises the
missing-variable error, whose payload carries a genuinely missing referenced
key together with the path of the template being rendered. -/
theorem c3_missing_variable :
    ∀ (fs : FS) (ctx : Ctx) (fuel : Nat) (path : String) (stack : List String)
      (text : String) (expanded : List Char),
      path ∉ stack → fs path = some text →
      substIncludes fs (fun q => renderTemplate fs ctx fuel q (stack ++ [path]))
        text.data.length text.data = .ok expanded →
      (∃ k, k ∈ varRefs expanded.length expanded ∧ ctx k = none) →
      ∃ k, renderTemplate fs ctx (fuel + 1) path stack = .err (.missingVar k path) ∧
        ctx k = none ∧ k ∈ varRefs expanded.length expanded := by
  intro fs ctx fuel path stack text expanded hni hfs hsub hex
  obtain ⟨k, hk, hn, hmem⟩ := substVars_missing path ctx expanded.length expanded le_rfl hex
  refine ⟨k, ?_, hn, hmem⟩
  simp only [renderTemplate, if_neg hni, hfs, hsub, hk]

theorem c3_missing_variable_witness :
    ∃ k, renderTemplate fsVarMiss emptyCtx 1 "t.html" [] =
        .err (.missingVar k "t.html") ∧
      emptyCtx k = none ∧
      k ∈ varRefs (String.data "Hi \x7b\x7bname\x7d\x7d").length
        (String.data "Hi \x7b\x7bname\x7d\x7d") :=
  c3_missing_variable fsVarMiss emptyCtx 0 "t.html" [] "Hi \x7b\x7bname\x7d\x7d"
    (String.data "Hi \x7b\x7bname\x7d\x7d") (by decide) (by decide) (by decide)
    ⟨"name", by decide, rfl⟩

/-- C4 counterexample: a template whose text contains an include directive
for the nonexistent `m2.html` renders to a `MissingIncludeError` that names
`m1.html` (the leftmost missing include), not `m2.html`; so the claim that
the error names each nonexistent referenced file fails as stated. -/
theorem c4_counterexample :
    fsTwoMissing "root.html" =
      some "\x7b\x7binclude: m1.html\x7d\x7d\x7b\x7binclude: m2.html\x7d\x7d" ∧
    "m2.html" ∈ includeRefs
      (String.data "\x7b\x7binclude: m1.html\x7d\x7d\x7b\x7binclude: m2.html\x7d\x7d") ∧
    fsTwoMissing "m2.html" = none ∧
    renderTemplate fsTwoMissing emptyCtx 2 "root.html" [] =
      .err (.missingInclude "m1.html") ∧
    renderTemplate fsTwoMissing emptyCtx 2 "root.html" [] ≠
      .err (.missingInclude "m2.html") := by decide

/-- C4 (amended): when the leftmost include directive of the template text
resolves to a path that does not exist, the render raises the
missing-include error naming exactly that file (directives are processed
left to right, so the first missing target is the one reported). -/
theorem c4_first_missing_include :
    ∀ (fs : FS) (ctx : Ctx) (fuel : Nat) (path : String) (stack : List String)
      (text q : String),
      path ∉ stack → fs path = some text →
      firstIncludeRef text.data = some q → fs q = none →
      renderTemplate fs ctx (fuel + 1) path stack = .err (.missingInclude q) := by
  intro fs ctx fuel path stack text q hni hfs hfirst hmiss
  have h1 := substIncludes_first_missing fs
    (fun p => renderTemplate fs ctx fuel p (stack ++ [path]))
    text.data.length text.data q le_rfl hfirst hmiss
  simp only [renderTemplate, if_neg hni, hfs, h1]

theorem c4_first_missing_include_witness :
    renderTemplate fsTwoMissing emptyCtx 1 "root.html" [] =
      .err (.missingInclude "m1.html") :=
  c4_first_missing_include fsTwoMissing emptyCtx 0 "root.html" []
    "\x7b\x7binclude: m1.html\x7d\x7d\x7b\x7binclude: m2.html\x7d\x7d" "m1.html"
    (by decide) (by decide) (by decide) (by decide)

/-- C5: when the include graph reachable from the root template is acyclic,
a top-level render never raises the cycle error, whatever recursion depth is
granted; and the diamond store (root includes `p1.html` and `p2.html`, both
of which include `x.html`) renders successfully, with both occurrences of
`x.html` independently re-expanded in full. -/
theorem c5_acyclic_no_cycle_error :
    (∀ (fs : FS) (ctx : Ctx) (root : String), AcyclicFrom fs root →
      ∀ (fuel : Nat) (c : String),
        renderTemplate fs ctx fuel root [] ≠ .err (.cycle c)) ∧
    renderTemplate fsDiamond ctxDiamond 4 "root.html" [] = .ok "[X!](X!)" := by
  constructor
  · intro fs ctx root hac fuel c
    refine render_no_cycle_aux fs ctx root hac fuel root [] ?_ ?_ c
    · simp
    · intro x hx
      simp only [List.nil_append, List.mem_singleton] at hx
      subst hx
      exact Relation.ReflTransGen.refl
  · decide

theorem c5_acyclic_no_cycle_error_witness :
    renderTemplate fsDiamond ctxDiamond 4 "root.html" [] ≠
      .err (.cycle "root.html -> root.html") :=
  c5_acyclic_no_cycle_error.1 fsDiamond ctxDiamond "root.html"
    fsDiamond_acyclic 4 "root.html -> root.html"

/-- C8: in the call tree of a top-level render, every recursive call that
proceeds past its cycle check runs with pairwise-distinct ancestor paths:
if a call on `path` with stack `stack` is reachable and `path` is not in
`stack`, the stack `stack ++ [path]` it hands to its recursive calls has no
duplicate entries. -/
theorem c8_stack_nodup :
    ∀ (fs : FS) (path : String) (stack : List String),
      Calls fs path stack → path ∉ stack → (stack ++ [path]).Nodup := by
  intro fs path stack hc
  induction hc with
  | top root =>
    intro _
    simp
  | step hcalls hni hfs hq hex ih =>
    intro hqni
    exact nodup_concat (ih hni) hqni

theorem c8_stack_nodup_witness :
    (["root.html"] ++ ["p1.html"]).Nodup :=
  c8_stack_nodup fsDiamond "p1.html" ["root.html"]
    (Calls.step (Calls.top "root.html") (by decide)
      (by decide :
        fsDiamond "root.html" =
          some "\x7b\x7binclude: p1.html\x7d\x7d\x7b\x7binclude: p2.html\x7d\x7d")
      (by decide) (by decide))
    (by decide)

/-- C10: variable substitution never rescans replacement text within the
same pass: substituting a matched placeholder splices the context value in
verbatim and resumes scanning after the placeholder in the original text;
concretely, a value that is itself placeholder-shaped (`{{other}}`, with
`other` present in the context and itself a live match for the variable
pattern) is copied into the output literally. -/
theorem c10_no_rescan :
    (∀ (path : String) (ctx : Ctx) (fuel : Nat) (l k rest : List Char) (v : String),
      matchVar l = some (k, rest) → ctx (String.mk k) = some v →
      substVars path ctx (fuel + 1) l =
        match substVars path ctx fuel rest with
        | .err e => .err e
        | .ok tail => .ok (v.data ++ tail)) ∧
    renderTemplate fsLiteral ctxLiteral 1 "t.html" [] =
      .ok "A\x7b\x7bother\x7d\x7dB" ∧
    ctxLiteral "other" = some "ZZZ" ∧
    matchVar (String.data "\x7b\x7bother\x7d\x7d") =
      some (String.data "other", []) := by
  refine ⟨?_, by decide, by decide, by decide⟩
  intro path ctx fuel l k rest v hm hctx
  cases l with
  | nil => simp [matchVar, expectChars] at hm
  | cons c cs => simp only [substVars, hm, hctx]

theorem c10_no_rescan_witness :
    substVars "t.html" ctxLiteral 1 (String.data "\x7b\x7bx\x7d\x7d") =
      match substVars "t.html" ctxLiteral 0 [] with
      | .err e => .err e
      | .ok tail => .ok ((String.data "\x7b\x7bother\x7d\x7d") ++ tail) :=
  c10_no_rescan.1 "t.html" ctxLiteral 0 (String.data "\x7b\x7bx\x7d\x7d")
    (String.data "x") [] "\x7b\x7bother\x7d\x7d" (by decide) (by decide)

/-- C7: the page builder writes `rendered.rstrip() + "\n"`: the written file
is the renderer's output with all trailing whitespace stripped and a single
newline appended, so it ends with exactly one newline and the character
before that newline, when there is one, is not whitespace. -/
theorem c7_single_trailing_newline :
    ∀ rendered : String,
      finalizeRendered rendered = rstrip rendered ++ "\n" ∧
      (finalizeRendered rendered).data.getLast? = some '\n' ∧
      ((finalizeRendered rendered).data.dropLast.getLast?).all
        (fun c => !(pySpace c)) = true := by
  intro rendered
  refine ⟨rfl, ?_, ?_⟩
  · rw [finalizeRendered, String.data_append]
    exact List.getLast?_concat _
  · rw [finalizeRendered, String.data_append]
    have hdrop : ((rstrip rendered).data ++ (String.data "\n")).dropLast =
        (rstrip rendered).data := List.dropLast_concat
    rw [hdrop, rstrip]
    rw [List.getLast?_reverse]
    generalize rendered.data.reverse = m
    induction m with
    | nil => rfl
    | cons c cs ih =>
      rw [List.dropWhile_cons]
      by_cases hc : pySpace c
      · simp only [hc, if_true]
        exact ih
      · simp only [hc, Bool.false_eq_true, if_false, List.head?_cons, Option.all_some]
        simp [hc]

/-- C6: in every context `_page_context` builds, for each navigation item in
both the header (`nav_*`) and footer (`footer_*`) regions, the `*_aria`
value is the attribute string ` aria-current="page"` and the
`*_current_class` value is the marker ` w--current` exactly when the
identifier that item declares (which in the source is `home` for the brand
item, per C9, and the item's own name otherwise) equals the page's declared
`current` identifier, and both are the empty string otherwise. -/
theorem c6_nav_current_marking :
    ∀ ( asset_prefix page_title page_description current : String),
      pageCtx asset_prefix page_title page_description current "nav_brand_aria" =
        some (if "home" = current then " aria-current=\"page\"" else "") ∧
      pageCtx asset_prefix page_title page_description current "nav_brand_current_class" =
        some (if "home" = current then " w--current" else "") ∧
      pageCtx asset_prefix page_title page_description current "nav_home_aria" =
        some (if "home" = current then " aria-current=\"page\"" else "") ∧
      pageCtx asset_prefix page_title page_description current "nav_home_current_class" =
        some (if "home" = current then " w--current" else "") ∧
      pageCtx asset_prefix page_title page_description current "nav_motorists_aria" =
        some (if "motorists" = current then " aria-current=\"page\"" else "") ∧
      pageCtx asset_prefix page_title page_description current "nav_motorists_current_class" =
        some (if "motorists" = current then " w--current" else "") ∧
      pageCtx asset_prefix page_title page_description current "nav_law_aria" =
        some (if "law" = current then " aria-current=\"page\"" else "") ∧
      pageCtx asset_prefix page_title page_description current "nav_law_current_class" =
        some (if "law" = current then " w--current" else "") ∧
      pageCtx asset_prefix page_title page_description current "footer_brand_aria" =
        some (if "home" = current then " aria-current=\"page\"" else "") ∧
      pageCtx asset_prefix page_title page_description current "footer_brand_current_class" =
        some (if "home" = current then " w--current" else "") ∧
      pageCtx asset_prefix page_title page_description current "footer_home_aria" =
        some (if "home" = current then " aria-current=\"page\"" else "") ∧
      pageCtx asset_prefix page_title page_description current "footer_home_current_class" =
        some (if "home" = current then " w--current" else "") ∧
      pageCtx asset_prefix page_title page_description current "footer_motorists_aria" =
        some (if "motorists" = current then " aria-current=\"page\"" else "") ∧
      pageCtx asset_prefix page_title page_description current "footer_motorists_current_class" =
        some (if "motorists" = current then " w--current" else "") ∧
      pageCtx asset_prefix page_title page_description current "footer_law_aria" =
        some (if "law" = current then " aria-current=\"page\"" else "") ∧
      pageCtx asset_prefix page_title page_description current "footer_law_current_class" =
        some (if "law" = current then " w--current" else "") := by
  intro asset_prefix page_title page_description current
  refine ⟨?_, ?_, ?_, ?_, ?_, ?_, ?_, ?_, ?_, ?_, ?_, ?_, ?_, ?_, ?_, ?_⟩ <;>
    simp [pageCtx, page_context, current_attrs, List.lookup] <;>
    split <;> rename_i h <;> simp [h]

/-- C9: in every context `_page_context` builds, the brand entries mirror
the home entries in both regions (so brand is marked current exactly when
the page's `current` identifier is `home`), and every footer entry equals
the corresponding header entry for the same item. -/
theorem c9_brand_footer_mirror :
    ∀ ( asset_prefix page_title page_description current : String),
      pageCtx asset_prefix page_title page_description current "nav_brand_aria" =
        pageCtx asset_prefix page_title page_description current "nav_home_aria" ∧
      pageCtx asset_prefix page_title page_description current "nav_brand_current_class" =
        pageCtx asset_prefix page_title page_description current "nav_home_current_class" ∧
      (pageCtx asset_prefix page_title page_description current "nav_brand_aria" =
          some " aria-current=\"page\"" ↔ "home" = current) ∧
      (pageCtx asset_prefix page_title page_description current "nav_brand_current_class" =
          some " w--current" ↔ "home" = current) ∧
      pageCtx asset_prefix page_title page_description current "footer_brand_aria" =
        pageCtx asset_prefix page_title page_description current "nav_brand_aria" ∧
      pageCtx asset_prefix page_title page_description current "footer_brand_current_class" =
        pageCtx asset_prefix page_title page_description current "nav_brand_current_class" ∧
      pageCtx asset_prefix page_title page_description current "footer_home_aria" =
        pageCtx asset_prefix page_title page_description current "nav_home_aria" ∧
      pageCtx asset_prefix page_title page_description current "footer_home_current_class" =
        pageCtx asset_prefix page_title page_description current "nav_home_current_class" ∧
      pageCtx asset_prefix page_title page_description current "footer_motorists_aria" =
        pageCtx asset_prefix page_title page_description current "nav_motorists_aria" ∧
      pageCtx asset_prefix page_title page_description current "footer_motorists_current_class" =
        pageCtx asset_prefix page_title page_description current "nav_motorists_current_class" ∧
      pageCtx asset_prefix page_title page_description current "footer_law_aria" =
        pageCtx asset_prefix page_title page_description current "nav_law_aria" ∧
      pageCtx asset_prefix page_title page_description current "footer_law_current_class" =
        pageCtx asset_prefix page_title page_description current "nav_law_current_class" := by
  intro asset_prefix page_title page_description current
  refine ⟨?_, ?_, ?_, ?_, ?_, ?_, ?_, ?_, ?_, ?_, ?_, ?_⟩ <;>
    simp [pageCtx, page_context, current_attrs, List.lookup] <;>
    split <;> rename_i h <;> simp [h]
